import Mathlib

/-!
Verification of the bible-story-bilder classification and acquisition logic.

Fileset identifiers (Python strings) are modelled as `List Char`; size codes
and book-set names as `String`.  Each definition is a direct translation of
the corresponding Python function in `sort_cache_data.py` or
`download_language_content.py`; stateful acquisition code is modelled with
explicit state passing and oracles for filesystem / network effects.
-/

/-- Fileset identifiers are Python strings, modelled as lists of characters. -/
abbrev FS := List Char

/-- Python `fs.endswith(suf)`: `suf` is a suffix of `fs`. -/
def endswith (fs suf : FS) : Bool :=
  suf.length ≤ fs.length && fs.drop (fs.length - suf.length) == suf

/-- Strip the first matching suffix from the given list, as both Python
`normalize_fileset_id` functions do (`if fileset_id.endswith(suffix): return
fileset_id[:-len(suffix)]`). -/
def normalizeWith : List FS → FS → FS
  | [], fs => fs
  | s :: rest, fs =>
      if endswith fs s then fs.take (fs.length - s.length) else normalizeWith rest fs

/-- The suffix list of `IndependentCacheDataSorter.normalize_fileset_id`
(`sort_cache_data.py` line 107). -/
def sorterSuffixes : List FS :=
  [("-opus16".data), ("-opus32".data), ("-mp3".data), ("-64".data), ("-128".data), ("16".data)]

/-- `IndependentCacheDataSorter.normalize_fileset_id` (`sort_cache_data.py`
lines 99-111). -/
def sorter_normalize_fileset_id (fileset_id : FS) : FS :=
  normalizeWith sorterSuffixes fileset_id

/-- The combined suffix lists of `download_language_content.normalize_fileset_id`
(lines 558 and 564): the audio loop runs first, then the text loop; each
returns on the first matching suffix, so the two loops are one ordered list. -/
def downloaderSuffixes : List FS :=
  [("-opus16".data), ("-opus32".data), ("-mp3-64".data), ("-mp3-128".data), ("-mp3".data),
   ("-json".data), ("-usx".data)]

/-- `download_language_content.normalize_fileset_id` (lines 547-569). -/
def downloader_normalize_fileset_id (fileset_id : FS) : FS :=
  normalizeWith downloaderSuffixes fileset_id

/-- Mapping of the collection character (`fileset_id[6]`) used by
`determine_book_set` (`sort_cache_data.py` lines 214-225). -/
def resolve_collection (c : Char) : Option String :=
  if c = 'O' then some "OT"
  else if c = 'N' then some "NT"
  else if c = 'C' then some "FULL"
  else if c = 'P' then some "PARTIAL"
  else if c = 'S' then some "STORY"
  else none

/-- `IndependentCacheDataSorter.determine_book_set` (`sort_cache_data.py`
lines 188-241).  `book_set` starts as `None`, is set from `fileset_id[6]`
when the identifier has length at least 7, is then reconciled against the
`size` field, and `book_set or "VARIOUS"` is returned. -/
def determine_book_set (fileset_id : FS) (size : String) : String :=
  let book_set : Option String :=
    if 7 ≤ fileset_id.length then (fileset_id.get? 6).bind resolve_collection else none
  let book_set : Option String :=
    if book_set = some "PARTIAL" then book_set
    else if size = "C" ∨ size = "NTOTP" then some "FULL"
    else if size = "NT" ∨ size = "NTP" then
      if book_set = some "OT" ∨ book_set = some "FULL" then book_set else some "NT"
    else if size = "OT" ∨ size = "OTP" then
      if book_set = some "NT" ∨ book_set = some "FULL" then book_set else some "OT"
    else book_set
  book_set.getD "VARIOUS"

/-- Book-set resolution written from the specification's words (section 4.1):
resolve the character at position 7 (1-indexed) as O→OT, N→NT, C→FULL,
P→PARTIAL, S→STORY; size `C`/`NTOTP` forces FULL; size `NT`/`NTP` forces NT
unless the identifier already resolved to OT or FULL; size `OT`/`OTP` forces
OT unless the identifier already resolved to NT or FULL; identifier-resolved
PARTIAL is never overridden by size; if neither signal resolves, VARIOUS. -/
def bookSetSpec (c : Char) (size : String) : String :=
  let idScope : Option String :=
    if c = 'O' then some "OT"
    else if c = 'N' then some "NT"
    else if c = 'C' then some "FULL"
    else if c = 'P' then some "PARTIAL"
    else if c = 'S' then some "STORY"
    else none
  if idScope = some "PARTIAL" then "PARTIAL"
  else if size = "C" ∨ size = "NTOTP" then "FULL"
  else if size = "NT" ∨ size = "NTP" then
    if idScope = some "OT" ∨ idScope = some "FULL" then idScope.getD "VARIOUS" else "NT"
  else if size = "OT" ∨ size = "OTP" then
    if idScope = some "NT" ∨ idScope = some "FULL" then idScope.getD "VARIOUS" else "OT"
  else idScope.getD "VARIOUS"

/-- Python `len(fs) >= 3 and fs[-3] == c`: the dramatization marker test of
`filter_dramatized_versions` (`sort_cache_data.py` lines 141-142). -/
def is_ver (c : Char) (fs : FS) : Bool :=
  decide (3 ≤ fs.length) && (fs.get? (fs.length - 3) == some c)

/-- Python `fs_id[:-3] + fs_id[-2:]`: the grouping key of
`filter_dramatized_versions` (`sort_cache_data.py` line 135). -/
def base_key (fs : FS) : FS :=
  fs.take (fs.length - 3) ++ fs.drop (fs.length - 2)

/-- Append a value to the group of key `k`, creating the group at the end if
absent: the behaviour of `defaultdict(list)` with insertion-ordered keys. -/
def insertGroup (k v : FS) : List (FS × List FS) → List (FS × List FS)
  | [] => [(k, [v])]
  | p :: rest => if p.1 = k then (p.1, p.2 ++ [v]) :: rest else p :: insertGroup k v rest

/-- One iteration of the grouping loop of `filter_dramatized_versions`
(`sort_cache_data.py` lines 132-136): identifiers shorter than 3 are not
grouped at all. -/
def groupStep (acc : List (FS × List FS)) (fs : FS) : List (FS × List FS) :=
  if 3 ≤ fs.length then insertGroup (base_key fs) fs acc else acc

/-- The `base_groups` dictionary of `filter_dramatized_versions`. -/
def base_groups (filesets : List FS) : List (FS × List FS) :=
  filesets.foldl groupStep []

/-- The per-group body of `filter_dramatized_versions` (`sort_cache_data.py`
lines 139-149). -/
def keepGroup (fs_list : List FS) : List FS :=
  let has_version_1 := fs_list.any (is_ver '1')
  let version_2_ids := fs_list.filter (is_ver '2')
  if has_version_1 && !version_2_ids.isEmpty then
    fs_list.filter (fun fs => !version_2_ids.contains fs)
  else
    fs_list

/-- `IndependentCacheDataSorter.filter_dramatized_versions`
(`sort_cache_data.py` lines 113-151). -/
def filter_dramatized_versions (filesets : List FS) : List FS :=
  (base_groups filesets).foldl (fun acc p => acc ++ keepGroup p.2) []

/-- All members of `l` that land in the group with key `k`: length at least 3
and base key equal to `k`. -/
def fiber (l : List FS) (k : FS) : List FS :=
  l.filter (fun fs => decide (3 ≤ fs.length) && (base_key fs == k))

/-- Lexicographic order on Python strings: the ascending order used by the
Python built-in `sorted`. -/
def strLe : FS → FS → Bool
  | [], _ => true
  | _ :: _, [] => false
  | a :: as, b :: bs => if a < b then true else if a = b then strLe as bs else false

/-- Relation form of `strLe`. -/
def strLeR (a b : FS) : Prop := strLe a b = true

instance (a b : FS) : Decidable (strLeR a b) :=
  inferInstanceAs (Decidable (strLe a b = true))

/-- `IndependentCacheDataSorter.match_audio_to_text` (`sort_cache_data.py`
lines 153-186): audio identifiers shorter than 6 yield no matches; each text
identifier is compared on a prefix of length `min(7, len(text_id))`, guarded
by `len(audio) >= compare_length`; the match list is returned sorted. -/
def match_audio_to_text (audio_fileset_id : FS) (text_filesets : List FS) : List FS :=
  if audio_fileset_id.length < 6 then []
  else
    let matched := text_filesets.filter (fun text_id =>
      let compare_length := min 7 text_id.length
      decide (compare_length ≤ audio_fileset_id.length) &&
        (audio_fileset_id.take compare_length == text_id.take compare_length))
    matched.insertionSort strLeR

/-- `IndependentCacheDataSorter.compute_syncable_pairs` (`sort_cache_data.py`
lines 311-352), parametrised by the language's audio/text identifier lists
and the timing-capable set (`self.timing_filesets`, modelled as a list). -/
def compute_syncable_pairs (timing_filesets audio_filesets text_filesets : List FS) :
    List (FS × List FS) :=
  let audio_without_timing := audio_filesets.filter
    (fun fs => !(timing_filesets.contains (sorter_normalize_fileset_id fs)))
  let audio_filtered := filter_dramatized_versions audio_without_timing
  audio_filtered.filterMap (fun audio_id =>
    let matching_text := match_audio_to_text audio_id text_filesets
    if matching_text.isEmpty then none else some (audio_id, matching_text))

/-- The `has_timing` flag computed by
`IndependentCacheDataSorter.create_metadata` (`sort_cache_data.py` line 445). -/
def has_timing (timing_filesets : List FS) (fileset_id : FS) : Bool :=
  timing_filesets.contains (sorter_normalize_fileset_id fileset_id)

/-- The keys of the `OT_BOOKS` dictionary (`download_language_content.py`
lines 86-126); the chapter counts are irrelevant to candidate selection. -/
def OT_BOOKS : List String :=
  ["GEN", "EXO", "LEV", "NUM", "DEU", "JOS", "JDG", "RUT", "1SA", "2SA",
   "1KI", "2KI", "1CH", "2CH", "EZR", "NEH", "EST", "JOB", "PSA", "PRO",
   "ECC", "SNG", "ISA", "JER", "LAM", "EZK", "DAN", "HOS", "JOL", "AMO",
   "OBA", "JON", "MIC", "NAM", "HAB", "ZEP", "HAG", "ZEC", "MAL"]

/-- The keys of the `NT_BOOKS` dictionary (`download_language_content.py`
lines 128-156). -/
def NT_BOOKS : List String :=
  ["MAT", "MRK", "LUK", "JHN", "ACT", "ROM", "1CO", "2CO", "GAL", "EPH",
   "PHP", "COL", "1TH", "2TH", "1TI", "2TI", "TIT", "PHM", "HEB", "JAS",
   "1PE", "2PE", "1JN", "2JN", "3JN", "JUD", "REV"]

/-- The fields of a classified metadata record that `get_audio_filesets` and
`get_text_filesets` read: fileset id, the `has_audio`/`has_text`
categorization flags and the resolved `book_set`. -/
structure FilesetMeta where
  id : FS
  has_audio : Bool
  has_text : Bool
  book_set : String
deriving DecidableEq

/-- The `_EXCLUSIONS` categories loaded from `exclude_download.json`
(`download_language_content.py` lines 163-168), modelled as identifier
lists. -/
structure DownloadExclusions where
  sa_versions : List FS
  partialContent : List FS
  story_adaptations : List FS
deriving DecidableEq

/-- Python `sub in fs`: substring containment. -/
def hasSub (sub fs : FS) : Bool :=
  (List.range (fs.length + 1)).any (fun i => (fs.drop i).take sub.length == sub)

/-- Strict order on Bool used by Python tuple comparison: `False < True`. -/
def bool_lt (a b : Bool) : Bool := !a && b

/-- Python sort key comparison for `audio_priority`
(`download_language_content.py` lines 446-452): the key is the tuple
`("2DA" in fileset_id, "-opus" in fileset_id, fileset_id)`. -/
def audio_priority_le (a b : FilesetMeta) : Bool :=
  let da := hasSub ("2DA".data) a.id
  let db := hasSub ("2DA".data) b.id
  let oa := hasSub ("-opus".data) a.id
  let ob := hasSub ("-opus".data) b.id
  if da = db then (if oa = ob then strLe a.id b.id else bool_lt oa ob) else bool_lt da db

/-- Relation form of `audio_priority_le`. -/
def audioPriorityR (a b : FilesetMeta) : Prop := audio_priority_le a b = true

instance (a b : FilesetMeta) : Decidable (audioPriorityR a b) :=
  inferInstanceAs (Decidable (audio_priority_le a b = true))

/-- Python `text_priority` rank (`download_language_content.py` lines
497-506). -/
def text_priority_rank (data : FilesetMeta) : Nat :=
  if endswith data.id ("_ET".data) && !(data.id.contains '-') then 0
  else if endswith data.id ("-usx".data) then 1
  else if endswith data.id ("-json".data) then 2
  else 3

/-- Python sort key comparison for `text_priority`: key is the pair
`(rank, fileset_id)`. -/
def text_priority_le (a b : FilesetMeta) : Bool :=
  if text_priority_rank a = text_priority_rank b then strLe a.id b.id
  else decide (text_priority_rank a < text_priority_rank b)

/-- Relation form of `text_priority_le`. -/
def textPriorityR (a b : FilesetMeta) : Prop := text_priority_le a b = true

instance (a b : FilesetMeta) : Decidable (textPriorityR a b) :=
  inferInstanceAs (Decidable (text_priority_le a b = true))

/-- `download_language_content.get_audio_filesets` (lines 407-456),
parametrised by the exclusion ledger and the language's metadata records. -/
def get_audio_filesets (excl : DownloadExclusions) (metadata : List FilesetMeta)
    (book_id : String) : List FilesetMeta :=
  let is_ot := OT_BOOKS.contains book_id
  let audio_filesets := metadata.filter (fun data =>
    data.has_audio &&
    !(excl.sa_versions.contains data.id) &&
    !(excl.story_adaptations.contains data.id) &&
    (data.book_set == "FULL" || (data.book_set == "OT" && is_ot) ||
      (data.book_set == "NT" && !is_ot)))
  audio_filesets.insertionSort audioPriorityR

/-- `download_language_content.get_text_filesets` (lines 459-510). -/
def get_text_filesets (excl : DownloadExclusions) (metadata : List FilesetMeta)
    (book_id : String) : List FilesetMeta :=
  let is_ot := OT_BOOKS.contains book_id
  let text_filesets := metadata.filter (fun data =>
    data.has_text &&
    !(excl.sa_versions.contains data.id) &&
    !(excl.story_adaptations.contains data.id) &&
    (data.book_set == "FULL" || (data.book_set == "OT" && is_ot) ||
      (data.book_set == "NT" && !is_ot)))
  text_filesets.insertionSort textPriorityR

/-- "Book-set scope covers the requested book", the specification's words
(section 4.4): FULL always covers, OT covers Old-Testament books, NT covers
New-Testament books. -/
def covers (book_set : String) (book_id : String) : Prop :=
  book_set = "FULL" ∨ (book_set = "OT" ∧ book_id ∈ OT_BOOKS) ∨
    (book_set = "NT" ∧ book_id ∈ NT_BOOKS)

instance (book_set book_id : String) : Decidable (covers book_set book_id) :=
  inferInstanceAs (Decidable (book_set = "FULL" ∨ (book_set = "OT" ∧ book_id ∈ OT_BOOKS) ∨
    (book_set = "NT" ∧ book_id ∈ NT_BOOKS)))

/-- An audio or text download candidate inside `download_book_chapter`: its
full fileset identifier and its distinct work identity
(`get_distinct_id_from_metadata`). -/
structure DLCand where
  fs : FS
  distinct : FS
deriving DecidableEq

/-- Filesystem and network oracles for `download_book_chapter`, for a fixed
(language, book, chapter): each field answers one collaborator call. -/
structure DownloadEnv where
  audio_file_in_dir : FS → Bool
  existing_audio_fs : FS → FS
  timing_file_on_disk : FS → Bool
  timing_available : FS → Bool
  timing_data : FS → Bool
  timing_save_ok : FS → Bool
  audio_url : FS → Option FS
  audio_download_ok : FS → Bool
  text_file_in_dir : FS → Bool
  text_content : FS → Bool
  text_save_ok : FS → Bool

/-- What happened to one audio candidate in the loop of
`download_book_chapter`. -/
inductive AudioEvent where
  | skippedDup (fs d : FS)
  | existing (d : FS)
  | downloaded (fs d : FS)
  | noUrl (fs : FS)
  | failed (fs : FS)
deriving DecidableEq

/-- A network call performed by `download_book_chapter`. -/
inductive NetCall where
  | getAudioUrl (fs : FS)
  | downloadAudio (fs : FS) (url : FS)
  | getTiming (fs : FS)
  | getText (fs : FS)
deriving DecidableEq

/-- Result of the audio loop of `download_book_chapter`. -/
structure LoopResult where
  events : List AudioEvent
  calls : List NetCall
  anySuccess : Bool
  anyTiming : Bool
deriving DecidableEq

/-- Outcome of processing one audio candidate. -/
structure StepResult where
  event : AudioEvent
  calls : List NetCall
  success : Bool
  timing : Bool
  newIds : List FS
deriving DecidableEq

/-- Timing handling in the existing-audio branch of `download_book_chapter`
(lines 1169-1189): nothing if the timing file exists, otherwise one network
fetch if timing is available. -/
def timingForExisting (env : DownloadEnv) (efs : FS) : List NetCall × Bool :=
  if env.timing_file_on_disk efs then ([], true)
  else if env.timing_available efs then
    ([NetCall.getTiming efs], env.timing_data efs && env.timing_save_ok efs)
  else ([], false)

/-- Timing handling after a successful audio download (lines 1231-1283). -/
def timingForDownloaded (env : DownloadEnv) (force : Bool) (fs : FS) : List NetCall × Bool :=
  if env.timing_available fs then
    if !env.timing_file_on_disk fs || force then
      ([NetCall.getTiming fs], env.timing_data fs && env.timing_save_ok fs)
    else ([], true)
  else ([], false)

/-- One iteration of the audio loop of `download_book_chapter` (lines
1146-1305): skip a distinct work identity already downloaded; count an
existing file as success (opportunistically fetching timing); otherwise
resolve the audio URL and download, recording the work identity only on
success. -/
def audioStep (env : DownloadEnv) (force : Bool) (c : DLCand) (done : List FS) : StepResult :=
  if done.contains c.distinct then
    ⟨AudioEvent.skippedDup c.fs c.distinct, [], false, false, done⟩
  else if env.audio_file_in_dir c.distinct && !force then
    let efs := env.existing_audio_fs c.distinct
    let t := timingForExisting env efs
    ⟨AudioEvent.existing c.distinct, t.1, true, t.2, done ++ [c.distinct]⟩
  else
    match env.audio_url c.fs with
    | none => ⟨AudioEvent.noUrl c.fs, [NetCall.getAudioUrl c.fs], false, false, done⟩
    | some url =>
      if env.audio_download_ok url then
        let t := timingForDownloaded env force c.fs
        ⟨AudioEvent.downloaded c.fs c.distinct,
          NetCall.getAudioUrl c.fs :: NetCall.downloadAudio c.fs url :: t.1,
          true, t.2, done ++ [c.distinct]⟩
      else
        ⟨AudioEvent.failed c.fs,
          [NetCall.getAudioUrl c.fs, NetCall.downloadAudio c.fs url],
          false, false, done⟩

/-- The audio loop of `download_book_chapter` over the ordered candidate
list, threading `downloaded_distinct_ids`. -/
def audioLoop (env : DownloadEnv) (force : Bool) :
    List DLCand → List FS → LoopResult
  | [], _ => ⟨[], [], false, false⟩
  | c :: rest, done =>
    let s := audioStep env force c done
    let r := audioLoop env force rest s.newIds
    ⟨s.event :: r.events, s.calls ++ r.calls, s.success || r.anySuccess,
      s.timing || r.anyTiming⟩

/-- Result of the text loop of `download_book_chapter`. -/
structure TextLoopResult where
  calls : List NetCall
  anySuccess : Bool
deriving DecidableEq

/-- Outcome of processing one text candidate. -/
structure TextStepResult where
  calls : List NetCall
  success : Bool
  newIds : List FS
deriving DecidableEq

/-- One iteration of the text loop of `download_book_chapter` (lines
1310-1389). -/
def textStep (env : DownloadEnv) (force : Bool) (c : DLCand) (done : List FS) :
    TextStepResult :=
  if done.contains c.distinct then ⟨[], false, done⟩
  else if env.text_file_in_dir c.distinct && !force then
    ⟨[], true, done ++ [c.distinct]⟩
  else
    if env.text_content c.fs then
      if env.text_save_ok c.fs then ⟨[NetCall.getText c.fs], true, done ++ [c.distinct]⟩
      else ⟨[NetCall.getText c.fs], false, done⟩
    else ⟨[NetCall.getText c.fs], false, done⟩

/-- The text loop of `download_book_chapter`, threading
`downloaded_text_distinct_ids`. -/
def textLoop (env : DownloadEnv) (force : Bool) :
    List DLCand → List FS → TextLoopResult
  | [], _ => ⟨[], false⟩
  | c :: rest, done =>
    let s := textStep env force c done
    let r := textLoop env force rest s.newIds
    ⟨s.calls ++ r.calls, s.success || r.anySuccess⟩

/-- Is this event a successful audio acquisition (download performed, or an
existing file counted as success) for work identity `d`? -/
def successFor (d : FS) : AudioEvent → Bool
  | AudioEvent.existing d' => d' == d
  | AudioEvent.downloaded _ d' => d' == d
  | _ => false

/-- Number of successful audio acquisitions for work identity `d`. -/
def countSuccessFor (d : FS) (evs : List AudioEvent) : Nat :=
  evs.countP (successFor d)

/-- The fileset an audio-content fetch call (URL resolution or audio
download) is for; `none` for timing and text calls. -/
def audioFetchFs : NetCall → Option FS
  | NetCall.getAudioUrl fs => some fs
  | NetCall.downloadAudio fs _ => some fs
  | _ => none

/-- Concrete oracle environment in which every output file already exists on
disk and no timing is available; used to instantiate the loop theorems. -/
def allExistingEnv : DownloadEnv where
  audio_file_in_dir := fun _ => true
  existing_audio_fs := fun d => d
  timing_file_on_disk := fun _ => true
  timing_available := fun _ => false
  timing_data := fun _ => true
  timing_save_ok := fun _ => true
  audio_url := fun fs => some fs
  audio_download_ok := fun _ => true
  text_file_in_dir := fun _ => true
  text_content := fun _ => true
  text_save_ok := fun _ => true

/-- Concrete oracle environment in which nothing exists on disk yet and every
network call succeeds; used to instantiate the loop theorems. -/
def freshEnv : DownloadEnv where
  audio_file_in_dir := fun _ => false
  existing_audio_fs := fun d => d
  timing_file_on_disk := fun _ => false
  timing_available := fun _ => false
  timing_data := fun _ => true
  timing_save_ok := fun _ => true
  audio_url := fun fs => some fs
  audio_download_ok := fun _ => true
  text_file_in_dir := fun _ => false
  text_content := fun _ => true
  text_save_ok := fun _ => true

/-- **C1**: for every fileset identifier of length ≥ 7 and every size string,
`determine_book_set` is a pure function of the character at position 7
(1-indexed) and the size, resolving and reconciling exactly as the
specification states (`bookSetSpec`); in particular identifier `AAAMLTP1DA`
with size `"OT"` yields `PARTIAL`. -/
theorem determine_book_set_matches_spec :
    (∀ (fileset_id : FS) (size : String) (c : Char),
      7 ≤ fileset_id.length → fileset_id.get? 6 = some c →
      determine_book_set fileset_id size = bookSetSpec c size) ∧
    determine_book_set ("AAAMLTP1DA".data) "OT" = "PARTIAL" := by
  constructor
  · intro fileset_id size c h7 hc
    unfold determine_book_set bookSetSpec resolve_collection
    rw [if_pos h7, hc]
    simp only [Option.bind_eq_bind, Option.some_bind]
    by_cases hO : c = 'O'
    · subst hO; simp only [reduceIte]; split_ifs <;> simp_all
    by_cases hN : c = 'N'
    · subst hN; simp only [reduceIte]; split_ifs <;> simp_all
    by_cases hC : c = 'C'
    · subst hC; simp only [reduceIte]; split_ifs <;> simp_all
    by_cases hP : c = 'P'
    · subst hP; simp only [reduceIte]; split_ifs <;> simp_all
    by_cases hS : c = 'S'
    · subst hS; simp only [reduceIte]; split_ifs <;> simp_all
    simp only [if_neg hO, if_neg hN, if_neg hC, if_neg hP, if_neg hS, reduceIte]
    split_ifs <;> simp_all
  · decide

/-- Witness for `determine_book_set_matches_spec`: instantiated at identifier
`AAAMLTN1DA` and empty size. -/
theorem determine_book_set_matches_spec_witness :
    determine_book_set ("AAAMLTN1DA".data) "" = bookSetSpec 'N' "" :=
  determine_book_set_matches_spec.1 ("AAAMLTN1DA".data) "" 'N' (by decide) (by decide)

theorem fiber_append_single (l : List FS) (fs k : FS) :
    fiber (l ++ [fs]) k =
      fiber l k ++ (if 3 ≤ fs.length ∧ base_key fs = k then [fs] else []) := by
  simp only [fiber, List.filter_append]
  congr 1
  by_cases h1 : 3 ≤ fs.length <;> by_cases h2 : base_key fs = k
  · simp [List.filter, h1, beq_iff_eq, h2]
  · have hb : (base_key fs == k) = false := by simp [h2]
    simp [List.filter, h1, hb, h2]
  · simp [List.filter, h1, h2]
  · simp [List.filter, h1, h2]

theorem keys_insertGroup (k v : FS) (gs : List (FS × List FS)) :
    (insertGroup k v gs).map Prod.fst =
      if k ∈ gs.map Prod.fst then gs.map Prod.fst else gs.map Prod.fst ++ [k] := by
  induction gs with
  | nil => simp [insertGroup]
  | cons p rest ih =>
    by_cases h : p.1 = k
    · simp [insertGroup, h]
    · simp only [insertGroup, if_neg h, List.map_cons, ih]
      by_cases hk : k ∈ rest.map Prod.fst
      · rw [if_pos hk, if_pos (List.mem_cons_of_mem _ hk)]
      · rw [if_neg hk, if_neg ?_, List.cons_append]
        intro hmem
        rcases List.mem_cons.mp hmem with he | hm
        · exact h he.symm
        · exact hk hm

theorem insertGroup_content (done : List FS) (bk fs : FS)
    (gs : List (FS × List FS)) (hnd : (gs.map Prod.fst).Nodup)
    (hcont : ∀ p ∈ gs, p.2 = fiber done p.1)
    (hmiss : bk ∉ gs.map Prod.fst → fiber done bk = []) :
    ∀ p ∈ insertGroup bk fs gs,
      p.2 = fiber done p.1 ++ (if p.1 = bk then [fs] else []) := by
  induction gs with
  | nil =>
    intro p hp
    simp only [insertGroup, List.mem_singleton] at hp
    subst hp
    simp [hmiss (by simp)]
  | cons q rest ih =>
    intro p hp
    simp only [insertGroup] at hp
    by_cases h : q.1 = bk
    · rw [if_pos h] at hp
      rcases List.mem_cons.mp hp with he | hm
      · subst he
        simp only [if_pos h]
        rw [hcont q (List.mem_cons_self q rest)]
      · have hq : q.1 ∉ rest.map Prod.fst := (List.nodup_cons.mp (by simpa using hnd)).1
        have hpk : p.1 ≠ bk := by
          intro he
          exact hq (h ▸ he ▸ List.mem_map_of_mem Prod.fst hm)
        rw [if_neg hpk, List.append_nil]
        exact hcont p (List.mem_cons_of_mem _ hm)
    · rw [if_neg h] at hp
      rcases List.mem_cons.mp hp with he | hm
      · subst he
        rw [if_neg h, List.append_nil]
        exact hcont p (List.mem_cons_self _ _)
      · exact ih (List.nodup_cons.mp (by simpa using hnd)).2
          (fun r hr => hcont r (List.mem_cons_of_mem _ hr))
          (fun hnm => hmiss (by
            intro hmem
            rw [List.map_cons] at hmem
            rcases List.mem_cons.mp hmem with he | hmm
            · exact h he.symm
            · exact hnm hmm)) p hm

theorem base_groups_invariant :
    ∀ (l done : List FS) (acc : List (FS × List FS)),
      (acc.map Prod.fst).Nodup →
      (∀ p ∈ acc, p.2 = fiber done p.1) →
      (∀ k, k ∉ acc.map Prod.fst → fiber done k = []) →
      ((l.foldl groupStep acc).map Prod.fst).Nodup ∧
      (∀ p ∈ l.foldl groupStep acc, p.2 = fiber (done ++ l) p.1) ∧
      (∀ k, k ∉ (l.foldl groupStep acc).map Prod.fst → fiber (done ++ l) k = []) := by
  intro l
  induction l with
  | nil =>
    intro done acc h1 h2 h3
    simp only [List.foldl_nil, List.append_nil]
    exact ⟨h1, h2, h3⟩
  | cons fs rest ih =>
    intro done acc h1 h2 h3
    rw [List.foldl_cons, show done ++ fs :: rest = (done ++ [fs]) ++ rest by simp]
    by_cases hlen : 3 ≤ fs.length
    · rw [show groupStep acc fs = insertGroup (base_key fs) fs acc from if_pos hlen]
      apply ih (done ++ [fs])
      · rw [keys_insertGroup]
        by_cases hk : base_key fs ∈ acc.map Prod.fst
        · simpa [hk] using h1
        · rw [if_neg hk]
          simp [List.nodup_append, h1, hk]
      · intro p hp
        rw [insertGroup_content done (base_key fs) fs acc h1 h2 (h3 _) p hp,
          fiber_append_single]
        by_cases hpk : p.1 = base_key fs
        · simp [hpk, hlen]
        · rw [if_neg hpk, if_neg (fun h => hpk h.2.symm)]
      · intro k hk
        rw [keys_insertGroup] at hk
        have hknotin : k ∉ acc.map Prod.fst ∧ k ≠ base_key fs := by
          by_cases hmem : base_key fs ∈ acc.map Prod.fst
          · rw [if_pos hmem] at hk
            exact ⟨hk, fun he => hk (he ▸ hmem)⟩
          · rw [if_neg hmem] at hk
            constructor
            · exact fun hmm => hk (List.mem_append_left _ hmm)
            · exact fun he => hk (List.mem_append_right _ (by simp [he]))
        rw [fiber_append_single, h3 k hknotin.1,
          if_neg (fun h => hknotin.2 h.2.symm), List.nil_append]
    · rw [show groupStep acc fs = acc from if_neg hlen]
      have hfib : ∀ k, fiber (done ++ [fs]) k = fiber done k := by
        intro k
        rw [fiber_append_single, if_neg (fun h => hlen h.1), List.append_nil]
      exact ih (done ++ [fs]) acc h1 (fun p hp => (hfib p.1) ▸ h2 p hp)
        (fun k hk => (hfib k) ▸ h3 k hk)

theorem base_groups_spec (l : List FS) :
    (∀ p ∈ base_groups l, p.2 = fiber l p.1) ∧
    (∀ k, k ∉ (base_groups l).map Prod.fst → fiber l k = []) := by
  have h := base_groups_invariant l [] [] (by simp) (by simp) (fun k _ => rfl)
  exact ⟨fun p hp => by simpa using h.2.1 p hp, fun k hk => by simpa using h.2.2 k hk⟩

theorem mem_keepFold (gs : List (FS × List FS)) :
    ∀ (acc : List FS) (x : FS),
      (x ∈ gs.foldl (fun acc p => acc ++ keepGroup p.2) acc ↔
        x ∈ acc ∨ ∃ p ∈ gs, x ∈ keepGroup p.2) := by
  induction gs with
  | nil => simp
  | cons q rest ih =>
    intro acc x
    rw [List.foldl_cons, ih]
    simp [List.mem_append, or_assoc]

theorem keepGroup_mem (L : List FS) (x : FS) :
    x ∈ keepGroup L ↔
      x ∈ L ∧ ¬(is_ver '2' x = true ∧ L.any (is_ver '1') = true) := by
  unfold keepGroup
  by_cases h1 : L.any (is_ver '1') = true
  · by_cases h2 : (L.filter (is_ver '2')).isEmpty = true
    · rw [if_neg (by simp [h1, h2])]
      rw [List.isEmpty_iff] at h2
      constructor
      · intro hx
        refine ⟨hx, fun hc => ?_⟩
        have : x ∈ L.filter (is_ver '2') := List.mem_filter.mpr ⟨hx, hc.1⟩
        simp [h2] at this
      · exact fun h => h.1
    · rw [if_pos (by simp [h1, h2]), List.mem_filter]
      constructor
      · rintro ⟨hxL, hxc⟩
        refine ⟨hxL, fun hc => ?_⟩
        have hv : x ∈ L.filter (is_ver '2') := List.mem_filter.mpr ⟨hxL, hc.1⟩
        rw [Bool.not_eq_true', ← Bool.not_eq_true] at hxc
        exact hxc (List.elem_iff.mpr hv)
      · rintro ⟨hxL, hcond⟩
        refine ⟨hxL, ?_⟩
        have h2x : ¬ is_ver '2' x = true := fun hh => hcond ⟨hh, h1⟩
        have : x ∉ L.filter (is_ver '2') := fun hv => h2x (List.mem_filter.mp hv).2
        simp [List.elem_iff, this]
  · rw [if_neg (by simp [h1])]
    exact ⟨fun hx => ⟨hx, fun hc => h1 hc.2⟩, fun h => h.1⟩

theorem mem_filter_dramatized (l : List FS) (x : FS) :
    x ∈ filter_dramatized_versions l ↔
      x ∈ l ∧ 3 ≤ x.length ∧
        ¬(is_ver '2' x = true ∧ (fiber l (base_key x)).any (is_ver '1') = true) := by
  unfold filter_dramatized_versions
  rw [mem_keepFold]
  simp only [List.not_mem_nil, false_or]
  constructor
  · rintro ⟨p, hp, hx⟩
    rw [keepGroup_mem] at hx
    have hcont := (base_groups_spec l).1 p hp
    rw [hcont] at hx
    obtain ⟨hxf, hnc⟩ := hx
    have hxl := List.mem_filter.mp hxf
    have hbk : base_key x = p.1 := by
      have := hxl.2
      simp only [Bool.and_eq_true, decide_eq_true_eq, beq_iff_eq] at this
      exact this.2
    have hlen : 3 ≤ x.length := by
      have := hxl.2
      simp only [Bool.and_eq_true, decide_eq_true_eq, beq_iff_eq] at this
      exact this.1
    refine ⟨hxl.1, hlen, ?_⟩
    rwa [hbk]
  · rintro ⟨hxl, hlen, hnc⟩
    have hxf : x ∈ fiber l (base_key x) :=
      List.mem_filter.mpr ⟨hxl, by simp [hlen]⟩
    have hne : fiber l (base_key x) ≠ [] := fun he => by simp [he] at hxf
    have hkey : base_key x ∈ (base_groups l).map Prod.fst := by
      by_contra hk
      exact hne ((base_groups_spec l).2 _ hk)
    obtain ⟨p, hp, hpk⟩ := List.mem_map.mp hkey
    refine ⟨p, hp, ?_⟩
    rw [keepGroup_mem, (base_groups_spec l).1 p hp, hpk]
    exact ⟨hxf, hnc⟩

/-- **C6**: `filter_dramatized_versions` is idempotent as a set
transformation: applying it to its own output yields the same set of
identifiers as applying it once. -/
theorem filter_dramatized_versions_idempotent (filesets : List FS) (x : FS) :
    x ∈ filter_dramatized_versions (filter_dramatized_versions filesets) ↔
      x ∈ filter_dramatized_versions filesets := by
  rw [mem_filter_dramatized]
  constructor
  · exact fun h => h.1
  · intro hx
    have hc := (mem_filter_dramatized filesets x).mp hx
    refine ⟨hx, hc.2.1, fun hcc => ?_⟩
    obtain ⟨y, hy, hy1⟩ := List.any_eq_true.mp hcc.2
    have hyf := List.mem_filter.mp hy
    have hyl := (mem_filter_dramatized filesets y).mp hyf.1
    apply hc.2.2
    refine ⟨hcc.1, List.any_eq_true.mpr ⟨y, List.mem_filter.mpr ⟨hyl.1, hyf.2⟩, hy1⟩⟩

/-- **C10**: for every input list, `filter_dramatized_versions` removes every
identifier shorter than 3 characters (even when no dramatized variant
exists, e.g. on the singleton input `["AB"]`); only identifiers of length at
least 3 can appear in the result. -/
theorem filter_dramatized_versions_length_bound :
    (∀ (filesets : List FS) (x : FS),
      x ∈ filter_dramatized_versions filesets → 3 ≤ x.length) ∧
    filter_dramatized_versions [('A' :: 'B' :: [])] = [] := by
  constructor
  · intro filesets x hx
    exact ((mem_filter_dramatized filesets x).mp hx).2.1
  · rfl

/-- Witness for `filter_dramatized_versions_length_bound`: the identifier
`ABC` survives the filter and indeed has length at least 3. -/
theorem filter_dramatized_versions_length_bound_witness :
    3 ≤ ('A' :: 'B' :: 'C' :: ([] : List Char)).length :=
  filter_dramatized_versions_length_bound.1 [('A' :: 'B' :: 'C' :: [])]
    ('A' :: 'B' :: 'C' :: []) (by decide)

theorem strLe_cons (x y : Char) (xs ys : FS) :
    strLe (x :: xs) (y :: ys) = true ↔ x < y ∨ (x = y ∧ strLe xs ys = true) := by
  show (if x < y then true else if x = y then strLe xs ys else false) = true ↔ _
  split_ifs with h1 h2 <;> simp_all

theorem strLe_total : ∀ a b : FS, strLe a b = true ∨ strLe b a = true := by
  intro a
  induction a with
  | nil => intro b; exact Or.inl rfl
  | cons x xs ih =>
    intro b
    cases b with
    | nil => exact Or.inr rfl
    | cons y ys =>
      rcases lt_trichotomy x y with h | h | h
      · exact Or.inl ((strLe_cons x y xs ys).mpr (Or.inl h))
      · subst h
        rcases ih ys with hl | hr
        · exact Or.inl ((strLe_cons x x xs ys).mpr (Or.inr ⟨rfl, hl⟩))
        · exact Or.inr ((strLe_cons x x ys xs).mpr (Or.inr ⟨rfl, hr⟩))
      · exact Or.inr ((strLe_cons y x ys xs).mpr (Or.inl h))

theorem strLe_trans : ∀ a b c : FS, strLe a b = true → strLe b c = true → strLe a c = true := by
  intro a
  induction a with
  | nil => intro b c _ _; rfl
  | cons x xs ih =>
    intro b c hab hbc
    cases b with
    | nil => simp [strLe] at hab
    | cons y ys =>
      cases c with
      | nil => simp [strLe] at hbc
      | cons z zs =>
        rcases (strLe_cons x y xs ys).mp hab with h1 | ⟨he1, hs1⟩
        · rcases (strLe_cons y z ys zs).mp hbc with h2 | ⟨he2, hs2⟩
          · exact (strLe_cons x z xs zs).mpr (Or.inl (lt_trans h1 h2))
          · exact (strLe_cons x z xs zs).mpr (Or.inl (lt_of_lt_of_eq h1 he2))
        · rcases (strLe_cons y z ys zs).mp hbc with h2 | ⟨he2, hs2⟩
          · exact (strLe_cons x z xs zs).mpr (Or.inl (lt_of_eq_of_lt he1 h2))
          · exact (strLe_cons x z xs zs).mpr
              (Or.inr ⟨he1.trans he2, ih ys zs hs1 hs2⟩)

/-- **C3 counterexample**: the audio identifier `ABCDE` (length 5) shares its
full 5-character prefix with the text identifier `ABCDE`, so by the claim it
should match regardless of the audio identifier's length, yet
`match_audio_to_text` returns no match at all. -/
theorem match_audio_to_text_short_audio_counterexample :
    ("ABCDE".data).take (min 7 ("ABCDE".data).length) =
        ("ABCDE".data).take (min 7 ("ABCDE".data).length) ∧
      match_audio_to_text ("ABCDE".data) [("ABCDE".data)] = [] :=
  ⟨rfl, by decide⟩

/-- **C3 (amended)**: for every audio identifier of length at least 6,
whether a text identifier `t` matches depends only on the prefix of length
`min(7, length of t)` — equal prefixes over that length constitute a match,
all matches are kept, and the returned list is sorted; audio identifiers
shorter than 6 characters yield the empty match list. -/
theorem match_audio_to_text_spec :
    (∀ (audio : FS) (texts : List FS) (t : FS), 6 ≤ audio.length →
      (t ∈ match_audio_to_text audio texts ↔
        t ∈ texts ∧ audio.take (min 7 t.length) = t.take (min 7 t.length))) ∧
    (∀ (audio : FS) (texts : List FS),
      List.Sorted strLeR (match_audio_to_text audio texts)) ∧
    (∀ (audio : FS) (texts : List FS), audio.length < 6 →
      match_audio_to_text audio texts = []) := by
  refine ⟨?_, ?_, ?_⟩
  · intro audio texts t h6
    unfold match_audio_to_text
    rw [if_neg (Nat.not_lt.mpr h6)]
    rw [List.mem_insertionSort, List.mem_filter]
    simp only [Bool.and_eq_true, decide_eq_true_eq, beq_iff_eq]
    constructor
    · rintro ⟨ht, _, heq⟩
      exact ⟨ht, heq⟩
    · rintro ⟨ht, heq⟩
      refine ⟨ht, ?_, heq⟩
      by_contra hcl
      push_neg at hcl
      have hlt : min 7 t.length ≤ t.length := min_le_right _ _
      have h1 : (audio.take (min 7 t.length)).length = audio.length := by
        rw [List.length_take]
        omega
      have h2 : (t.take (min 7 t.length)).length = min 7 t.length := by
        rw [List.length_take]
        omega
      rw [heq, h2] at h1
      omega
  · intro audio texts
    unfold match_audio_to_text
    split_ifs
    · exact List.sorted_nil
    · haveI : IsTotal FS strLeR := ⟨strLe_total⟩
      haveI : IsTrans FS strLeR := ⟨strLe_trans⟩
      exact List.sorted_insertionSort strLeR _
  · intro audio texts h
    unfold match_audio_to_text
    rw [if_pos h]

/-- Witness for `match_audio_to_text_spec`: `ENGWEBN_ET` matches
`ENGWEBN1DA` on the 7-character prefix, and a 5-character audio identifier
yields no matches. -/
theorem match_audio_to_text_spec_witness :
    ("ENGWEBN_ET".data) ∈ match_audio_to_text ("ENGWEBN1DA".data) [("ENGWEBN_ET".data)] ∧
      match_audio_to_text ("ABCDE".data) [("ABC".data)] = [] :=
  ⟨(match_audio_to_text_spec.1 ("ENGWEBN1DA".data) [("ENGWEBN_ET".data)]
      ("ENGWEBN_ET".data) (by decide)).mpr (by decide),
    match_audio_to_text_spec.2.2 ("ABCDE".data) [("ABC".data)] (by decide)⟩

theorem endswith_getLast (fs s : FS) (h : endswith fs s = true) (hs : s ≠ []) :
    fs.getLast? = s.getLast? := by
  unfold endswith at h
  simp only [Bool.and_eq_true, decide_eq_true_eq, beq_iff_eq] at h
  have hsplit : fs.take (fs.length - s.length) ++ s = fs := by
    conv_rhs => rw [← List.take_append_drop (fs.length - s.length) fs]
    rw [h.2]
  rw [← hsplit, List.getLast?_append_of_ne_nil _ hs]

theorem endswith_conflict (fs s1 s2 : FS) (h1 : endswith fs s1 = true)
    (hne1 : s1 ≠ []) (hne2 : s2 ≠ []) (hl : s1.getLast? ≠ s2.getLast?) :
    endswith fs s2 = false := by
  by_contra h
  rw [Bool.not_eq_false] at h
  exact hl ((endswith_getLast fs s1 h1 hne1).symm.trans (endswith_getLast fs s2 h hne2))

/-- **C9 counterexample**: on the fileset identifier `ENGESV_ET-json` (an
identifier the downloader's own doc string uses), the classifier's
normalization returns `ENGESV_ET-json` unchanged while the orchestrator's
normalization returns `ENGESV_ET`, so the two functions do not return the
same base identifier for every fileset identifier. -/
theorem normalize_fileset_id_counterexample :
    sorter_normalize_fileset_id ("ENGESV_ET-json".data) ≠
      downloader_normalize_fileset_id ("ENGESV_ET-json".data) := by
  decide

/-- **C9 (amended)**: the two suffix-stripping functions agree on every
fileset identifier that ends in `-opus16`, `-opus32`, or `-mp3`, and on
every identifier that ends in none of the format markers of either
function; they can differ on identifiers ending in `-mp3-64`, `-mp3-128`,
`-64`, `-128`, `16`, `-json`, or `-usx`. -/
theorem normalize_fileset_id_agreement (fs : FS)
    (h : endswith fs ("-opus16".data) = true ∨ endswith fs ("-opus32".data) = true ∨
      endswith fs ("-mp3".data) = true ∨
      (endswith fs ("-opus16".data) = false ∧ endswith fs ("-opus32".data) = false ∧
        endswith fs ("-mp3".data) = false ∧ endswith fs ("-64".data) = false ∧
        endswith fs ("-128".data) = false ∧ endswith fs ("16".data) = false ∧
        endswith fs ("-mp3-64".data) = false ∧ endswith fs ("-mp3-128".data) = false ∧
        endswith fs ("-json".data) = false ∧ endswith fs ("-usx".data) = false)) :
    sorter_normalize_fileset_id fs = downloader_normalize_fileset_id fs := by
  unfold sorter_normalize_fileset_id downloader_normalize_fileset_id sorterSuffixes
    downloaderSuffixes
  rcases h with h | h | h | h
  · simp only [normalizeWith, h, if_true]
  · have h16 : endswith fs ("-opus16".data) = false :=
      endswith_conflict fs _ _ h (by decide) (by decide) (by decide)
    simp only [normalizeWith, h, h16, if_true, if_false, Bool.false_eq_true]
  · have h16 : endswith fs ("-opus16".data) = false :=
      endswith_conflict fs _ _ h (by decide) (by decide) (by decide)
    have h32 : endswith fs ("-opus32".data) = false :=
      endswith_conflict fs _ _ h (by decide) (by decide) (by decide)
    have h64 : endswith fs ("-mp3-64".data) = false :=
      endswith_conflict fs _ _ h (by decide) (by decide) (by decide)
    have h128 : endswith fs ("-mp3-128".data) = false :=
      endswith_conflict fs _ _ h (by decide) (by decide) (by decide)
    simp only [normalizeWith, h, h16, h32, h64, h128, if_true, if_false, Bool.false_eq_true]
  · obtain ⟨h1, h2, h3, h4, h5, h6, h7, h8, h9, h10⟩ := h
    simp only [normalizeWith, h1, h2, h3, h4, h5, h6, h7, h8, h9, h10, if_false,
      Bool.false_eq_true]

/-- Witness for `normalize_fileset_id_agreement`: instantiated at
`ENGWEBN1DA-opus16`, where both functions strip the `-opus16` suffix. -/
theorem normalize_fileset_id_agreement_witness :
    sorter_normalize_fileset_id ("ENGWEBN1DA-opus16".data) =
      downloader_normalize_fileset_id ("ENGWEBN1DA-opus16".data) :=
  normalize_fileset_id_agreement ("ENGWEBN1DA-opus16".data) (Or.inl (by decide))

/-- **C2**: no fileset whose metadata has `has_timing = true` ever appears as
the audio side of a syncable pair: every pair produced by
`compute_syncable_pairs` has an audio identifier whose normalized form is
outside the timing set, and `has_timing` applies the same normalization to
the same set. -/
theorem syncable_pairs_never_timing (timing_filesets audio_filesets text_filesets : List FS)
    (p : FS × List FS)
    (hp : p ∈ compute_syncable_pairs timing_filesets audio_filesets text_filesets) :
    has_timing timing_filesets p.1 = false := by
  unfold compute_syncable_pairs at hp
  obtain ⟨a, ha, hpa⟩ := List.mem_filterMap.mp hp
  by_cases hm : (match_audio_to_text a text_filesets).isEmpty = true
  · rw [if_pos hm] at hpa
    cases hpa
  · rw [if_neg hm] at hpa
    have hp1 : p.1 = a := by
      cases hpa
      rfl
    have haf := ((mem_filter_dramatized _ a).mp ha).1
    have hcond := (List.mem_filter.mp haf).2
    rw [Bool.not_eq_true'] at hcond
    rw [has_timing, hp1]
    exact hcond

/-- Witness for `syncable_pairs_never_timing`: the pair
`(ENGWEBN1DA, [ENGWEBN_ET])` produced with an empty timing set indeed has
`has_timing = false`. -/
theorem syncable_pairs_never_timing_witness :
    has_timing [] ("ENGWEBN1DA".data) = false :=
  syncable_pairs_never_timing [] [("ENGWEBN1DA".data), ("ENGWEBN2DA".data)]
    [("ENGWEBN_ET".data)] (("ENGWEBN1DA".data), [("ENGWEBN_ET".data)]) (by decide)

/-- **C8**: for a language with audio identifiers `ENGWEBN1DA`, `ENGWEBN2DA`
(neither timing-capable) and text identifier `ENGWEBN_ET`, the dramatization
filter keeps only `ENGWEBN1DA`, the 7-character prefix match against
`ENGWEBN_ET` succeeds, and `compute_syncable_pairs` returns exactly the one
pair `(ENGWEBN1DA, [ENGWEBN_ET])`. -/
theorem compute_syncable_pairs_scenario :
    compute_syncable_pairs [] [("ENGWEBN1DA".data), ("ENGWEBN2DA".data)]
        [("ENGWEBN_ET".data)] =
      [(("ENGWEBN1DA".data), [("ENGWEBN_ET".data)])] := by
  decide

theorem ot_nt_disjoint : ∀ b ∈ OT_BOOKS, b ∉ NT_BOOKS := by decide

theorem contains_eq_false_iff {α : Type} [BEq α] [LawfulBEq α] (l : List α) (x : α) :
    l.contains x = false ↔ x ∉ l := by
  rw [← Bool.not_eq_true, not_iff_not]
  exact List.elem_iff

theorem coverage_cond_iff (bs : String) (book_id : String)
    (hb : book_id ∈ OT_BOOKS ∨ book_id ∈ NT_BOOKS) :
    ((bs == "FULL" || (bs == "OT" && OT_BOOKS.contains book_id) ||
      (bs == "NT" && !(OT_BOOKS.contains book_id))) = true) ↔ covers bs book_id := by
  by_cases hot : book_id ∈ OT_BOOKS
  · have hc : OT_BOOKS.contains book_id = true := List.elem_iff.mpr hot
    have hnt : book_id ∉ NT_BOOKS := ot_nt_disjoint book_id hot
    simp [covers, hc, hot, hnt, beq_iff_eq]
  · have hc : OT_BOOKS.contains book_id = false := contains_eq_false_iff _ _ |>.mpr hot
    have hbnt : book_id ∈ NT_BOOKS := hb.resolve_left hot
    simp [covers, hc, hot, hbnt, beq_iff_eq]

/-- **C7**: for every requested canonical book and every classified fileset
of the matching content type, the fileset is a download candidate iff it is
in no exclusion category and its resolved book-set scope covers the book
(FULL always covers, OT only Old-Testament books, NT only New-Testament
books, PARTIAL never a candidate); the coherence hypothesis records that the
partial-content exclusion ledger lists exactly filesets classified PARTIAL,
which is how `track_exclusions` populates it.  In particular requesting the
OT book `GEN` against an NT fileset yields no candidacy. -/
theorem get_filesets_candidacy :
    (∀ (excl : DownloadExclusions) (metadata : List FilesetMeta) (book_id : String),
      (book_id ∈ OT_BOOKS ∨ book_id ∈ NT_BOOKS) →
      (∀ d ∈ metadata, d.id ∈ excl.partialContent → d.book_set = "PARTIAL") →
      ∀ d : FilesetMeta,
        (d ∈ get_audio_filesets excl metadata book_id ↔
          d ∈ metadata ∧ d.has_audio = true ∧ d.id ∉ excl.sa_versions ∧
            d.id ∉ excl.story_adaptations ∧ d.id ∉ excl.partialContent ∧
            covers d.book_set book_id)) ∧
    (∀ (excl : DownloadExclusions) (metadata : List FilesetMeta) (book_id : String),
      (book_id ∈ OT_BOOKS ∨ book_id ∈ NT_BOOKS) →
      (∀ d ∈ metadata, d.id ∈ excl.partialContent → d.book_set = "PARTIAL") →
      ∀ d : FilesetMeta,
        (d ∈ get_text_filesets excl metadata book_id ↔
          d ∈ metadata ∧ d.has_text = true ∧ d.id ∉ excl.sa_versions ∧
            d.id ∉ excl.story_adaptations ∧ d.id ∉ excl.partialContent ∧
            covers d.book_set book_id)) ∧
    get_audio_filesets ⟨[], [], []⟩
      [⟨("ENGESVN1DA".data), true, false, "NT"⟩] "GEN" = [] := by
  refine ⟨?_, ?_, by decide⟩
  · intro excl metadata book_id hb hcoh d
    simp only [get_audio_filesets]
    rw [List.mem_insertionSort, List.mem_filter]
    constructor
    · rintro ⟨hd, hcond⟩
      simp only [Bool.and_eq_true, Bool.not_eq_true'] at hcond
      obtain ⟨⟨⟨hau, hsa⟩, hst⟩, hcov⟩ := hcond
      have hcov' := (coverage_cond_iff d.book_set book_id hb).mp hcov
      have hnp : d.book_set ≠ "PARTIAL" := by
        rcases hcov' with h | h | h
        · rw [h]; decide
        · rw [h.1]; decide
        · rw [h.1]; decide
      exact ⟨hd, hau, (contains_eq_false_iff _ _).mp hsa,
        (contains_eq_false_iff _ _).mp hst, fun hp => hnp (hcoh d hd hp), hcov'⟩
    · rintro ⟨hd, hau, hsa, hst, _, hcov⟩
      refine ⟨hd, ?_⟩
      simp only [Bool.and_eq_true, Bool.not_eq_true']
      exact ⟨⟨⟨hau, (contains_eq_false_iff _ _).mpr hsa⟩,
        (contains_eq_false_iff _ _).mpr hst⟩,
        (coverage_cond_iff d.book_set book_id hb).mpr hcov⟩
  · intro excl metadata book_id hb hcoh d
    simp only [get_text_filesets]
    rw [List.mem_insertionSort, List.mem_filter]
    constructor
    · rintro ⟨hd, hcond⟩
      simp only [Bool.and_eq_true, Bool.not_eq_true'] at hcond
      obtain ⟨⟨⟨hau, hsa⟩, hst⟩, hcov⟩ := hcond
      have hcov' := (coverage_cond_iff d.book_set book_id hb).mp hcov
      have hnp : d.book_set ≠ "PARTIAL" := by
        rcases hcov' with h | h | h
        · rw [h]; decide
        · rw [h.1]; decide
        · rw [h.1]; decide
      exact ⟨hd, hau, (contains_eq_false_iff _ _).mp hsa,
        (contains_eq_false_iff _ _).mp hst, fun hp => hnp (hcoh d hd hp), hcov'⟩
    · rintro ⟨hd, hau, hsa, hst, _, hcov⟩
      refine ⟨hd, ?_⟩
      simp only [Bool.and_eq_true, Bool.not_eq_true']
      exact ⟨⟨⟨hau, (contains_eq_false_iff _ _).mpr hsa⟩,
        (contains_eq_false_iff _ _).mpr hst⟩,
        (coverage_cond_iff d.book_set book_id hb).mpr hcov⟩

/-- Witness for `get_filesets_candidacy`: an NT audio fileset is a candidate
for the NT book `MAT` when no exclusions apply. -/
theorem get_filesets_candidacy_witness :
    (⟨("ENGESVN1DA".data), true, false, "NT"⟩ : FilesetMeta) ∈
      get_audio_filesets ⟨[], [], []⟩
        [⟨("ENGESVN1DA".data), true, false, "NT"⟩] "MAT" :=
  (get_filesets_candidacy.1 ⟨[], [], []⟩
    [⟨("ENGESVN1DA".data), true, false, "NT"⟩] "MAT"
    (Or.inr (by decide)) (by decide) _).mpr (by decide)

theorem append_singleton_ne (done : List FS) (x : FS) : done ≠ done ++ [x] := by
  intro h
  have := congrArg List.length h
  simp at this

theorem timingForExisting_calls (env : DownloadEnv) (efs : FS) :
    ∀ call ∈ (timingForExisting env efs).1, audioFetchFs call = none := by
  unfold timingForExisting
  split_ifs <;> simp [audioFetchFs]

theorem timingForDownloaded_calls (env : DownloadEnv) (force : Bool) (fs : FS) :
    ∀ call ∈ (timingForDownloaded env force fs).1, audioFetchFs call = none := by
  unfold timingForDownloaded
  split_ifs <;> simp [audioFetchFs]


theorem audioStep_cases (env : DownloadEnv) (force : Bool) (c : DLCand) (done : List FS) :
    (done.contains c.distinct = true ∧
      audioStep env force c done =
        ⟨AudioEvent.skippedDup c.fs c.distinct, [], false, false, done⟩) ∨
    (done.contains c.distinct = false ∧
      (env.audio_file_in_dir c.distinct && !force) = true ∧
      audioStep env force c done =
        ⟨AudioEvent.existing c.distinct,
          (timingForExisting env (env.existing_audio_fs c.distinct)).1, true,
          (timingForExisting env (env.existing_audio_fs c.distinct)).2,
          done ++ [c.distinct]⟩) ∨
    (done.contains c.distinct = false ∧
      (env.audio_file_in_dir c.distinct && !force) = false ∧
      env.audio_url c.fs = none ∧
      audioStep env force c done =
        ⟨AudioEvent.noUrl c.fs, [NetCall.getAudioUrl c.fs], false, false, done⟩) ∨
    (∃ url, done.contains c.distinct = false ∧
      (env.audio_file_in_dir c.distinct && !force) = false ∧
      env.audio_url c.fs = some url ∧ env.audio_download_ok url = true ∧
      audioStep env force c done =
        ⟨AudioEvent.downloaded c.fs c.distinct,
          NetCall.getAudioUrl c.fs :: NetCall.downloadAudio c.fs url ::
            (timingForDownloaded env force c.fs).1,
          true, (timingForDownloaded env force c.fs).2, done ++ [c.distinct]⟩) ∨
    (∃ url, done.contains c.distinct = false ∧
      (env.audio_file_in_dir c.distinct && !force) = false ∧
      env.audio_url c.fs = some url ∧ env.audio_download_ok url = false ∧
      audioStep env force c done =
        ⟨AudioEvent.failed c.fs,
          [NetCall.getAudioUrl c.fs, NetCall.downloadAudio c.fs url],
          false, false, done⟩) := by
  by_cases h1 : done.contains c.distinct = true
  · refine Or.inl ⟨h1, ?_⟩
    simp only [audioStep]
    rw [if_pos h1]
  · have h1' : done.contains c.distinct = false := Bool.eq_false_iff.mpr h1
    by_cases h2 : (env.audio_file_in_dir c.distinct && !force) = true
    · refine Or.inr (Or.inl ⟨h1', h2, ?_⟩)
      simp only [audioStep]
      rw [if_neg h1, if_pos h2]
    · have h2' : (env.audio_file_in_dir c.distinct && !force) = false :=
        Bool.eq_false_iff.mpr h2
      rcases hurl : env.audio_url c.fs with _ | url
      · refine Or.inr (Or.inr (Or.inl ⟨h1', h2', rfl, ?_⟩))
        simp only [audioStep]
        rw [if_neg h1, if_neg h2, hurl]
      · by_cases h3 : env.audio_download_ok url = true
        · refine Or.inr (Or.inr (Or.inr (Or.inl ⟨url, h1', h2', rfl, h3, ?_⟩)))
          simp only [audioStep]
          rw [if_neg h1, if_neg h2, hurl]
          simp only [if_pos h3]
        · have h3' : env.audio_download_ok url = false := Bool.eq_false_iff.mpr h3
          refine Or.inr (Or.inr (Or.inr (Or.inr ⟨url, h1', h2', rfl, h3', ?_⟩)))
          simp only [audioStep]
          rw [if_neg h1, if_neg h2, hurl]
          simp only [if_neg h3]

theorem audioStep_success_false_newIds (env : DownloadEnv) (force : Bool)
    (c : DLCand) (done : List FS) (h : (audioStep env force c done).success = false) :
    (audioStep env force c done).newIds = done := by
  rcases audioStep_cases env force c done with ⟨h1, heq⟩ | ⟨h1, h2, heq⟩ |
    ⟨h1, h2, hurl, heq⟩ | ⟨url, h1, h2, hurl, h3, heq⟩ | ⟨url, h1, h2, hurl, h3, heq⟩ <;>
    rw [heq] at h ⊢ <;> simp_all

theorem audioStep_successFor (env : DownloadEnv) (force : Bool)
    (c : DLCand) (done : List FS) (d : FS)
    (h : successFor d (audioStep env force c done).event = true) :
    d = c.distinct ∧ (audioStep env force c done).newIds = done ++ [c.distinct] ∧
      done.contains c.distinct = false := by
  rcases audioStep_cases env force c done with ⟨h1, heq⟩ | ⟨h1, h2, heq⟩ |
    ⟨h1, h2, hurl, heq⟩ | ⟨url, h1, h2, hurl, h3, heq⟩ | ⟨url, h1, h2, hurl, h3, heq⟩ <;>
    rw [heq] at h ⊢
  · simp [successFor] at h
  · simp only [successFor, beq_iff_eq] at h
    exact ⟨h.symm, rfl, h1⟩
  · simp [successFor] at h
  · simp only [successFor, beq_iff_eq] at h
    exact ⟨h.symm, rfl, h1⟩
  · simp [successFor] at h

theorem audioStep_newIds_cases (env : DownloadEnv) (force : Bool)
    (c : DLCand) (done : List FS) :
    (audioStep env force c done).newIds = done ∨
      (audioStep env force c done).newIds = done ++ [c.distinct] := by
  rcases audioStep_cases env force c done with ⟨h1, heq⟩ | ⟨h1, h2, heq⟩ |
    ⟨h1, h2, hurl, heq⟩ | ⟨url, h1, h2, hurl, h3, heq⟩ | ⟨url, h1, h2, hurl, h3, heq⟩ <;>
    rw [heq] <;> first | exact Or.inl rfl | exact Or.inr rfl

theorem audioStep_newIds_append (env : DownloadEnv) (force : Bool)
    (c : DLCand) (done : List FS)
    (h : (audioStep env force c done).newIds = done ++ [c.distinct]) :
    successFor c.distinct (audioStep env force c done).event = true := by
  rcases audioStep_cases env force c done with ⟨h1, heq⟩ | ⟨h1, h2, heq⟩ |
    ⟨h1, h2, hurl, heq⟩ | ⟨url, h1, h2, hurl, h3, heq⟩ | ⟨url, h1, h2, hurl, h3, heq⟩ <;>
    rw [heq] at h ⊢
  · exact absurd h (append_singleton_ne done c.distinct)
  · simp [successFor]
  · exact absurd h (append_singleton_ne done c.distinct)
  · simp [successFor]
  · exact absurd h (append_singleton_ne done c.distinct)

theorem audioStep_skipped_iff (env : DownloadEnv) (force : Bool)
    (c : DLCand) (done : List FS) (fs d : FS) :
    (audioStep env force c done).event = AudioEvent.skippedDup fs d ↔
      (done.contains c.distinct = true ∧ fs = c.fs ∧ d = c.distinct) := by
  rcases audioStep_cases env force c done with ⟨h1, heq⟩ | ⟨h1, h2, heq⟩ |
    ⟨h1, h2, hurl, heq⟩ | ⟨url, h1, h2, hurl, h3, heq⟩ | ⟨url, h1, h2, hurl, h3, heq⟩ <;>
    rw [heq]
  · constructor
    · intro he
      injection he with hf hd
      exact ⟨h1, hf.symm, hd.symm⟩
    · rintro ⟨_, hf, hd⟩
      rw [hf, hd]
  · constructor
    · intro he
      cases he
    · rintro ⟨hc, _, _⟩
      rw [h1] at hc
      cases hc
  · constructor
    · intro he
      cases he
    · rintro ⟨hc, _, _⟩
      rw [h1] at hc
      cases hc
  · constructor
    · intro he
      cases he
    · rintro ⟨hc, _, _⟩
      rw [h1] at hc
      cases hc
  · constructor
    · intro he
      cases he
    · rintro ⟨hc, _, _⟩
      rw [h1] at hc
      cases hc

theorem audioStep_contains_mono (env : DownloadEnv) (force : Bool)
    (c : DLCand) (done : List FS) (d : FS) (h : done.contains d = true) :
    (audioStep env force c done).newIds.contains d = true := by
  rcases audioStep_newIds_cases env force c done with hn | hn <;> rw [hn]
  · exact h
  · exact List.elem_iff.mpr (List.mem_append_left _ (List.elem_iff.mp h))

theorem audioStep_existing_success (env : DownloadEnv) (c : DLCand) (done : List FS)
    (h1 : done.contains c.distinct = false)
    (h2 : env.audio_file_in_dir c.distinct = true) :
    (audioStep env false c done).success = true := by
  rcases audioStep_cases env false c done with ⟨hc1, heq⟩ | ⟨hc1, hc2, heq⟩ |
    ⟨hc1, hc2, hurl, heq⟩ | ⟨url, hc1, hc2, hurl, h3, heq⟩ | ⟨url, hc1, hc2, hurl, h3, heq⟩ <;>
    rw [heq]
  · rw [h1] at hc1
    cases hc1
  · simp [h2] at hc2
  · simp [h2] at hc2

theorem audioStep_calls_fetch (env : DownloadEnv) (c : DLCand) (done : List FS) :
    ∀ call ∈ (audioStep env false c done).calls, ∀ fs,
      audioFetchFs call = some fs →
      fs = c.fs ∧ env.audio_file_in_dir c.distinct = false := by
  rcases audioStep_cases env false c done with ⟨hc1, heq⟩ | ⟨hc1, hc2, heq⟩ |
    ⟨hc1, hc2, hurl, heq⟩ | ⟨url, hc1, hc2, hurl, h3, heq⟩ | ⟨url, hc1, hc2, hurl, h3, heq⟩ <;>
    rw [heq]
  · intro call hc
    simp at hc
  · intro call hc fs hfs
    rw [timingForExisting_calls env _ call hc] at hfs
    cases hfs
  · have hex : env.audio_file_in_dir c.distinct = false := by
      simpa using hc2
    intro call hc fs hfs
    simp only [List.mem_singleton] at hc
    subst hc
    simp only [audioFetchFs, Option.some_inj] at hfs
    exact ⟨hfs.symm, hex⟩
  · have hex : env.audio_file_in_dir c.distinct = false := by
      simpa using hc2
    intro call hc fs hfs
    rcases List.mem_cons.mp hc with he | hc'
    · subst he
      simp only [audioFetchFs, Option.some_inj] at hfs
      exact ⟨hfs.symm, hex⟩
    rcases List.mem_cons.mp hc' with he | hc''
    · subst he
      simp only [audioFetchFs, Option.some_inj] at hfs
      exact ⟨hfs.symm, hex⟩
    · rw [timingForDownloaded_calls env false c.fs call hc''] at hfs
      cases hfs
  · have hex : env.audio_file_in_dir c.distinct = false := by
      simpa using hc2
    intro call hc fs hfs
    rcases List.mem_cons.mp hc with he | hc'
    · subst he
      simp only [audioFetchFs, Option.some_inj] at hfs
      exact ⟨hfs.symm, hex⟩
    · simp only [List.mem_singleton] at hc'
      subst hc'
      simp only [audioFetchFs, Option.some_inj] at hfs
      exact ⟨hfs.symm, hex⟩

theorem audioLoop_nil (env : DownloadEnv) (force : Bool) (done : List FS) :
    audioLoop env force [] done = ⟨[], [], false, false⟩ := rfl

theorem audioLoop_cons (env : DownloadEnv) (force : Bool) (c : DLCand)
    (rest : List DLCand) (done : List FS) :
    audioLoop env force (c :: rest) done =
      ⟨(audioStep env force c done).event ::
          (audioLoop env force rest (audioStep env force c done).newIds).events,
        (audioStep env force c done).calls ++
          (audioLoop env force rest (audioStep env force c done).newIds).calls,
        (audioStep env force c done).success ||
          (audioLoop env force rest (audioStep env force c done).newIds).anySuccess,
        (audioStep env force c done).timing ||
          (audioLoop env force rest (audioStep env force c done).newIds).anyTiming⟩ := rfl

theorem audioLoop_countZero (env : DownloadEnv) (force : Bool) :
    ∀ (cands : List DLCand) (done : List FS) (d : FS),
      done.contains d = true →
      countSuccessFor d (audioLoop env force cands done).events = 0 := by
  intro cands
  induction cands with
  | nil => intro done d _; rfl
  | cons c rest ih =>
    intro done d h
    rw [audioLoop_cons]
    show countSuccessFor d ((audioStep env force c done).event :: _) = 0
    unfold countSuccessFor
    rw [List.countP_cons]
    have hev : successFor d (audioStep env force c done).event = false := by
      by_contra hb
      rw [Bool.not_eq_false] at hb
      obtain ⟨hd, _, hcf⟩ := audioStep_successFor env force c done d hb
      rw [hd] at h
      rw [h] at hcf
      cases hcf
    have htail := ih (audioStep env force c done).newIds d
      (audioStep_contains_mono env force c done d h)
    unfold countSuccessFor at htail
    rw [htail, hev]
    simp

theorem audioLoop_atMostOne (env : DownloadEnv) (force : Bool) :
    ∀ (cands : List DLCand) (done : List FS) (d : FS),
      countSuccessFor d (audioLoop env force cands done).events ≤ 1 := by
  intro cands
  induction cands with
  | nil => intro done d; exact Nat.zero_le 1
  | cons c rest ih =>
    intro done d
    rw [audioLoop_cons]
    show countSuccessFor d ((audioStep env force c done).event :: _) ≤ 1
    unfold countSuccessFor
    rw [List.countP_cons]
    by_cases hev : successFor d (audioStep env force c done).event = true
    · obtain ⟨hd, hnew, _⟩ := audioStep_successFor env force c done d hev
      have hz := audioLoop_countZero env force rest (audioStep env force c done).newIds d
        (by
          rw [hnew, hd]
          exact List.elem_iff.mpr (List.mem_append_right _ (by simp)))
      unfold countSuccessFor at hz
      rw [hz, hev]
      simp
    · have hev' : successFor d (audioStep env force c done).event = false :=
        Bool.eq_false_iff.mpr hev
      rw [hev']
      have htail := ih (audioStep env force c done).newIds d
      unfold countSuccessFor at htail
      simpa using htail

theorem audioLoop_length (env : DownloadEnv) (force : Bool) :
    ∀ (cands : List DLCand) (done : List FS),
      (audioLoop env force cands done).events.length = cands.length := by
  intro cands
  induction cands with
  | nil => intro done; rfl
  | cons c rest ih =>
    intro done
    rw [audioLoop_cons]
    show ((audioStep env force c done).event :: _).length = _
    rw [List.length_cons, ih, List.length_cons]

theorem audioLoop_skip_implies (env : DownloadEnv) (force : Bool) :
    ∀ (cands : List DLCand) (done : List FS) (i : Nat) (fs d : FS),
      (audioLoop env force cands done).events.get? i =
        some (AudioEvent.skippedDup fs d) →
      done.contains d = true ∨
        ∃ j < i, ∃ e, (audioLoop env force cands done).events.get? j = some e ∧
          successFor d e = true := by
  intro cands
  induction cands with
  | nil =>
    intro done i fs d h
    rw [audioLoop_nil] at h
    simp at h
  | cons c rest ih =>
    intro done i fs d h
    rw [audioLoop_cons] at h ⊢
    cases i with
    | zero =>
      rw [List.get?_cons_zero] at h
      have he : (audioStep env force c done).event = AudioEvent.skippedDup fs d := by
        injection h
      obtain ⟨hc, _, hd⟩ := (audioStep_skipped_iff env force c done fs d).mp he
      left
      rw [hd]
      exact hc
    | succ i =>
      rw [List.get?_cons_succ] at h
      rcases ih (audioStep env force c done).newIds i fs d h with hc | ⟨j, hj, e, hget, hsucc⟩
      · rcases audioStep_newIds_cases env force c done with hn | hn
        · rw [hn] at hc
          exact Or.inl hc
        · rw [hn] at hc
          rcases List.mem_append.mp (List.elem_iff.mp hc) with hmem | hmem
          · exact Or.inl (List.elem_iff.mpr hmem)
          · have hd : d = c.distinct := by simpa using hmem
            right
            refine ⟨0, Nat.succ_pos i, (audioStep env force c done).event,
              List.get?_cons_zero, ?_⟩
            rw [hd]
            exact audioStep_newIds_append env force c done hn
      · right
        exact ⟨j + 1, Nat.succ_lt_succ hj, e,
          by rw [List.get?_cons_succ]; exact hget, hsucc⟩

theorem audioLoop_success_skips (env : DownloadEnv) (force : Bool) :
    ∀ (cands : List DLCand) (done : List FS) (i : Nat) (c' : DLCand),
      cands.get? i = some c' →
      (done.contains c'.distinct = true ∨
        ∃ j < i, ∃ e, (audioLoop env force cands done).events.get? j = some e ∧
          successFor c'.distinct e = true) →
      (audioLoop env force cands done).events.get? i =
        some (AudioEvent.skippedDup c'.fs c'.distinct) := by
  intro cands
  induction cands with
  | nil =>
    intro done i c' hc _
    simp at hc
  | cons c rest ih =>
    intro done i c' hc hyp
    rw [audioLoop_cons] at hyp ⊢
    cases i with
    | zero =>
      rw [List.get?_cons_zero] at hc
      have hcc : c = c' := by injection hc
      subst hcc
      rcases hyp with hcont | ⟨j, hj, _⟩
      · rw [List.get?_cons_zero]
        exact congrArg some
          ((audioStep_skipped_iff env force c done c.fs c.distinct).mpr ⟨hcont, rfl, rfl⟩)
      · exact absurd hj (Nat.not_lt_zero j)
    | succ i =>
      rw [List.get?_cons_succ] at hc ⊢
      apply ih (audioStep env force c done).newIds i c' hc
      rcases hyp with hcont | ⟨j, hj, e, hget, hsucc⟩
      · exact Or.inl (audioStep_contains_mono env force c done c'.distinct hcont)
      · cases j with
        | zero =>
          rw [List.get?_cons_zero] at hget
          have he : e = (audioStep env force c done).event := by
            injection hget with hg
            exact hg.symm
          rw [he] at hsucc
          obtain ⟨hd, hnew, _⟩ := audioStep_successFor env force c done c'.distinct hsucc
          left
          rw [hnew, hd]
          exact List.elem_iff.mpr (List.mem_append_right _ (by simp))
        | succ j =>
          rw [List.get?_cons_succ] at hget
          exact Or.inr ⟨j, Nat.lt_of_succ_lt_succ hj, e, hget, hsucc⟩

theorem audioLoop_calls_fetch (env : DownloadEnv) :
    ∀ (cands : List DLCand) (done : List FS),
      ∀ call ∈ (audioLoop env false cands done).calls, ∀ fs,
        audioFetchFs call = some fs →
        ∃ c ∈ cands, c.fs = fs ∧ env.audio_file_in_dir c.distinct = false := by
  intro cands
  induction cands with
  | nil =>
    intro done call hcall
    rw [audioLoop_nil] at hcall
    simp at hcall
  | cons c rest ih =>
    intro done call hcall fs hfs
    rw [audioLoop_cons] at hcall
    rcases List.mem_append.mp hcall with hmem | hmem
    · obtain ⟨hfsc, hex⟩ := audioStep_calls_fetch env c done call hmem fs hfs
      exact ⟨c, List.mem_cons_self c rest, hfsc.symm, hex⟩
    · obtain ⟨c', hc', hcfs, hex⟩ := ih (audioStep env false c done).newIds call hmem fs hfs
      exact ⟨c', List.mem_cons_of_mem c hc', hcfs, hex⟩

theorem audioLoop_existing_success (env : DownloadEnv) :
    ∀ (cands : List DLCand) (done : List FS) (c : DLCand),
      c ∈ cands → env.audio_file_in_dir c.distinct = true →
      done.contains c.distinct = false →
      (audioLoop env false cands done).anySuccess = true := by
  intro cands
  induction cands with
  | nil =>
    intro done c hc
    simp at hc
  | cons c0 rest ih =>
    intro done c hc hex hncont
    rw [audioLoop_cons]
    show ((audioStep env false c0 done).success || _) = true
    rcases List.mem_cons.mp hc with he | hmem
    · subst he
      rw [audioStep_existing_success env c done hncont hex]
      rfl
    · by_cases hs : (audioStep env false c0 done).success = true
      · rw [hs]
        rfl
      · have hs' : (audioStep env false c0 done).success = false :=
          Bool.eq_false_iff.mpr hs
        rw [hs', Bool.false_or]
        apply ih (audioStep env false c0 done).newIds c hmem hex
        rw [audioStep_success_false_newIds env false c0 done hs']
        exact hncont

theorem textStep_cases (env : DownloadEnv) (force : Bool) (c : DLCand) (done : List FS) :
    (done.contains c.distinct = true ∧ textStep env force c done = ⟨[], false, done⟩) ∨
    (done.contains c.distinct = false ∧
      (env.text_file_in_dir c.distinct && !force) = true ∧
      textStep env force c done = ⟨[], true, done ++ [c.distinct]⟩) ∨
    (done.contains c.distinct = false ∧
      (env.text_file_in_dir c.distinct && !force) = false ∧
      env.text_content c.fs = true ∧ env.text_save_ok c.fs = true ∧
      textStep env force c done = ⟨[NetCall.getText c.fs], true, done ++ [c.distinct]⟩) ∨
    (done.contains c.distinct = false ∧
      (env.text_file_in_dir c.distinct && !force) = false ∧
      env.text_content c.fs = true ∧ env.text_save_ok c.fs = false ∧
      textStep env force c done = ⟨[NetCall.getText c.fs], false, done⟩) ∨
    (done.contains c.distinct = false ∧
      (env.text_file_in_dir c.distinct && !force) = false ∧
      env.text_content c.fs = false ∧
      textStep env force c done = ⟨[NetCall.getText c.fs], false, done⟩) := by
  by_cases h1 : done.contains c.distinct = true
  · refine Or.inl ⟨h1, ?_⟩
    simp only [textStep]
    rw [if_pos h1]
  · have h1' : done.contains c.distinct = false := Bool.eq_false_iff.mpr h1
    by_cases h2 : (env.text_file_in_dir c.distinct && !force) = true
    · refine Or.inr (Or.inl ⟨h1', h2, ?_⟩)
      simp only [textStep]
      rw [if_neg h1, if_pos h2]
    · have h2' : (env.text_file_in_dir c.distinct && !force) = false :=
        Bool.eq_false_iff.mpr h2
      by_cases hc : env.text_content c.fs = true
      · by_cases hs : env.text_save_ok c.fs = true
        · refine Or.inr (Or.inr (Or.inl ⟨h1', h2', hc, hs, ?_⟩))
          simp only [textStep]
          rw [if_neg h1, if_neg h2, if_pos hc, if_pos hs]
        · refine Or.inr (Or.inr (Or.inr (Or.inl ⟨h1', h2', hc, Bool.eq_false_iff.mpr hs, ?_⟩)))
          simp only [textStep]
          rw [if_neg h1, if_neg h2, if_pos hc, if_neg hs]
      · refine Or.inr (Or.inr (Or.inr (Or.inr ⟨h1', h2', Bool.eq_false_iff.mpr hc, ?_⟩)))
        simp only [textStep]
        rw [if_neg h1, if_neg h2, if_neg hc]

theorem textStep_success_false_newIds (env : DownloadEnv) (force : Bool)
    (c : DLCand) (done : List FS) (h : (textStep env force c done).success = false) :
    (textStep env force c done).newIds = done := by
  rcases textStep_cases env force c done with ⟨h1, heq⟩ | ⟨h1, h2, heq⟩ |
    ⟨h1, h2, h3, h4, heq⟩ | ⟨h1, h2, h3, h4, heq⟩ | ⟨h1, h2, h3, heq⟩ <;>
    rw [heq] at h ⊢ <;> simp_all

theorem textStep_contains_mono (env : DownloadEnv) (force : Bool)
    (c : DLCand) (done : List FS) (d : FS) (h : done.contains d = true) :
    (textStep env force c done).newIds.contains d = true := by
  rcases textStep_cases env force c done with ⟨h1, heq⟩ | ⟨h1, h2, heq⟩ |
    ⟨h1, h2, h3, h4, heq⟩ | ⟨h1, h2, h3, h4, heq⟩ | ⟨h1, h2, h3, heq⟩ <;> rw [heq]
  · exact h
  · exact List.elem_iff.mpr (List.mem_append_left _ (List.elem_iff.mp h))
  · exact List.elem_iff.mpr (List.mem_append_left _ (List.elem_iff.mp h))
  · exact h
  · exact h

theorem textStep_existing_success (env : DownloadEnv) (c : DLCand) (done : List FS)
    (h1 : done.contains c.distinct = false)
    (h2 : env.text_file_in_dir c.distinct = true) :
    (textStep env false c done).success = true := by
  rcases textStep_cases env false c done with ⟨hc1, heq⟩ | ⟨hc1, hc2, heq⟩ |
    ⟨hc1, hc2, hc3, hc4, heq⟩ | ⟨hc1, hc2, hc3, hc4, heq⟩ | ⟨hc1, hc2, hc3, heq⟩ <;>
    rw [heq]
  · rw [h1] at hc1
    cases hc1
  · simp [h2] at hc2
  · simp [h2] at hc2

theorem textStep_calls (env : DownloadEnv) (c : DLCand) (done : List FS) :
    ∀ call ∈ (textStep env false c done).calls, ∀ fs,
      call = NetCall.getText fs →
      fs = c.fs ∧ env.text_file_in_dir c.distinct = false := by
  rcases textStep_cases env false c done with ⟨hc1, heq⟩ | ⟨hc1, hc2, heq⟩ |
    ⟨hc1, hc2, hc3, hc4, heq⟩ | ⟨hc1, hc2, hc3, hc4, heq⟩ | ⟨hc1, hc2, hc3, heq⟩ <;>
    rw [heq] <;>
    [skip; skip;
      (have hex : env.text_file_in_dir c.distinct = false := by simpa using hc2);
      (have hex : env.text_file_in_dir c.distinct = false := by simpa using hc2);
      (have hex : env.text_file_in_dir c.distinct = false := by simpa using hc2)] <;>
    intro call hcall fs hfs
  · simp at hcall
  · simp at hcall
  · simp only [List.mem_singleton] at hcall
    subst hcall
    injection hfs with hg
    exact ⟨hg.symm, hex⟩
  · simp only [List.mem_singleton] at hcall
    subst hcall
    injection hfs with hg
    exact ⟨hg.symm, hex⟩
  · simp only [List.mem_singleton] at hcall
    subst hcall
    injection hfs with hg
    exact ⟨hg.symm, hex⟩

theorem textLoop_nil (env : DownloadEnv) (force : Bool) (done : List FS) :
    textLoop env force [] done = ⟨[], false⟩ := rfl

theorem textLoop_cons (env : DownloadEnv) (force : Bool) (c : DLCand)
    (rest : List DLCand) (done : List FS) :
    textLoop env force (c :: rest) done =
      ⟨(textStep env force c done).calls ++
          (textLoop env force rest (textStep env force c done).newIds).calls,
        (textStep env force c done).success ||
          (textLoop env force rest (textStep env force c done).newIds).anySuccess⟩ := rfl

theorem textLoop_calls_fetch (env : DownloadEnv) :
    ∀ (cands : List DLCand) (done : List FS),
      ∀ call ∈ (textLoop env false cands done).calls, ∀ fs,
        call = NetCall.getText fs →
        ∃ c ∈ cands, c.fs = fs ∧ env.text_file_in_dir c.distinct = false := by
  intro cands
  induction cands with
  | nil =>
    intro done call hcall
    rw [textLoop_nil] at hcall
    simp at hcall
  | cons c rest ih =>
    intro done call hcall fs hfs
    rw [textLoop_cons] at hcall
    rcases List.mem_append.mp hcall with hmem | hmem
    · obtain ⟨hfsc, hex⟩ := textStep_calls env c done call hmem fs hfs
      exact ⟨c, List.mem_cons_self c rest, hfsc.symm, hex⟩
    · obtain ⟨c', hc', hcfs, hex⟩ := ih (textStep env false c done).newIds call hmem fs hfs
      exact ⟨c', List.mem_cons_of_mem c hc', hcfs, hex⟩

theorem textLoop_existing_success (env : DownloadEnv) :
    ∀ (cands : List DLCand) (done : List FS) (c : DLCand),
      c ∈ cands → env.text_file_in_dir c.distinct = true →
      done.contains c.distinct = false →
      (textLoop env false cands done).anySuccess = true := by
  intro cands
  induction cands with
  | nil =>
    intro done c hc
    simp at hc
  | cons c0 rest ih =>
    intro done c hc hex hncont
    rw [textLoop_cons]
    show ((textStep env false c0 done).success || _) = true
    rcases List.mem_cons.mp hc with he | hmem
    · subst he
      rw [textStep_existing_success env c done hncont hex]
      rfl
    · by_cases hs : (textStep env false c0 done).success = true
      · rw [hs]
        rfl
      · have hs' : (textStep env false c0 done).success = false :=
          Bool.eq_false_iff.mpr hs
        rw [hs', Bool.false_or]
        apply ih (textStep env false c0 done).newIds c hmem hex
        rw [textStep_success_false_newIds env false c0 done hs']
        exact hncont

/-- **C4**: in any single run of the audio loop of `download_book_chapter`
(fixed language, book and chapter), at most one successful audio acquisition
happens per distinct work identity; every candidate is processed (one event
each); a candidate is skipped as a duplicate only after an earlier success
(download or existing file) for its own work identity; and once such a
success happened, every later candidate with the same work identity is
skipped. -/
theorem download_book_chapter_audio_dedup (env : DownloadEnv) (force : Bool)
    (audio_filesets : List DLCand) :
    (∀ d : FS,
      countSuccessFor d (audioLoop env force audio_filesets []).events ≤ 1) ∧
    (audioLoop env force audio_filesets []).events.length = audio_filesets.length ∧
    (∀ (i : Nat) (fs d : FS),
      (audioLoop env force audio_filesets []).events.get? i =
        some (AudioEvent.skippedDup fs d) →
      ∃ j < i, ∃ e, (audioLoop env force audio_filesets []).events.get? j = some e ∧
        successFor d e = true) ∧
    (∀ (i : Nat) (c : DLCand), audio_filesets.get? i = some c →
      (∃ j < i, ∃ e, (audioLoop env force audio_filesets []).events.get? j = some e ∧
        successFor c.distinct e = true) →
      (audioLoop env force audio_filesets []).events.get? i =
        some (AudioEvent.skippedDup c.fs c.distinct)) := by
  refine ⟨fun d => audioLoop_atMostOne env force audio_filesets [] d,
    audioLoop_length env force audio_filesets [], ?_, ?_⟩
  · intro i fs d h
    rcases audioLoop_skip_implies env force audio_filesets [] i fs d h with hc | hex
    · simp at hc
    · exact hex
  · intro i c hc hex
    exact audioLoop_success_skips env force audio_filesets [] i c hc (Or.inr hex)

/-- Witness for `download_book_chapter_audio_dedup`: with two candidates of
the same work identity `W` and a fully available network, the second
candidate is skipped as a duplicate after the first downloads. -/
theorem download_book_chapter_audio_dedup_witness :
    (audioLoop freshEnv false
        [⟨("A1".data), ("W".data)⟩, ⟨("A2".data), ("W".data)⟩] []).events.get? 1 =
      some (AudioEvent.skippedDup ("A2".data) ("W".data)) :=
  (download_book_chapter_audio_dedup freshEnv false
      [⟨("A1".data), ("W".data)⟩, ⟨("A2".data), ("W".data)⟩]).2.2.2 1
    ⟨("A2".data), ("W".data)⟩ (by decide)
    ⟨0, Nat.zero_lt_one, AudioEvent.downloaded ("A1".data) ("W".data),
      by decide, by decide⟩

/-- **C5**: with `force = false`, every audio-content network call (URL
resolution or audio download) made by the audio loop belongs to a candidate
whose work directory had no existing audio file, and every text-content
network call of the text loop belongs to a candidate with no existing text
file — so a unit whose output file already exists triggers zero content
fetches for it — and any candidate whose output file already exists makes
the run report success for its content type. -/
theorem download_book_chapter_existing_no_refetch (env : DownloadEnv)
    (audio_filesets text_filesets : List DLCand) :
    (∀ call ∈ (audioLoop env false audio_filesets []).calls, ∀ fs,
      audioFetchFs call = some fs →
      ∃ c ∈ audio_filesets, c.fs = fs ∧ env.audio_file_in_dir c.distinct = false) ∧
    (∀ c ∈ audio_filesets, env.audio_file_in_dir c.distinct = true →
      (audioLoop env false audio_filesets []).anySuccess = true) ∧
    (∀ call ∈ (textLoop env false text_filesets []).calls, ∀ fs,
      call = NetCall.getText fs →
      ∃ c ∈ text_filesets, c.fs = fs ∧ env.text_file_in_dir c.distinct = false) ∧
    (∀ c ∈ text_filesets, env.text_file_in_dir c.distinct = true →
      (textLoop env false text_filesets []).anySuccess = true) := by
  refine ⟨audioLoop_calls_fetch env audio_filesets [], ?_,
    textLoop_calls_fetch env text_filesets [], ?_⟩
  · intro c hc hex
    exact audioLoop_existing_success env audio_filesets [] c hc hex rfl
  · intro c hc hex
    exact textLoop_existing_success env text_filesets [] c hc hex rfl

/-- Witness for `download_book_chapter_existing_no_refetch`: with every file
already on disk, a one-candidate run reports audio and text success. -/
theorem download_book_chapter_existing_no_refetch_witness :
    (audioLoop allExistingEnv false [⟨("A1".data), ("W".data)⟩] []).anySuccess = true ∧
      (textLoop allExistingEnv false [⟨("A1".data), ("W".data)⟩] []).anySuccess = true :=
  ⟨(download_book_chapter_existing_no_refetch allExistingEnv
      [⟨("A1".data), ("W".data)⟩] [⟨("A1".data), ("W".data)⟩]).2.1
      ⟨("A1".data), ("W".data)⟩ (by decide) (by decide),
    (download_book_chapter_existing_no_refetch allExistingEnv
      [⟨("A1".data), ("W".data)⟩] [⟨("A1".data), ("W".data)⟩]).2.2.2
      ⟨("A1".data), ("W".data)⟩ (by decide) (by decide)⟩
